import Mathlib

/-!
Verification of the ISO8583 authorization client (`src/iso_client.py`) of the
ISO-BACKEND repository.

The Python function `send_iso_authorization(host, port, pan, expiry, cvv,
amount_cents)` builds an ISO8583 "0100" authorization message, frames it with a
2-byte big-endian length, exchanges it over TCP, and maps the decoded response
to an approval dictionary; any exception anywhere is caught and normalized into
a failure dictionary.

Conventions of the embedding:
* bytes and characters are `Nat` (ASCII codes), byte strings are `List Nat`;
* the network is abstracted by `NetEnv`: a flag for connect success, a flag for
  write success, and the list of data arrivals on the read side, where each
  arrival is either a delivered byte group or a read timeout, and an empty or
  exhausted arrival queue means the peer closed the connection;
* the current UTC timestamp string (the value of
  `now.strftime("%m%d%H%M%S")`) is passed in as an explicit argument `now`,
  since reading the clock is an external effect;
* the `pyiso8583` message codec (`Iso8583.get_network_message` /
  `set_network_message` / `get_bit`) imported by the source is not present
  under `src/`; it is modelled from the spec (see the doc comments of the
  codec definitions below).
-/

deriving instance DecidableEq for Except

namespace IsoBackend

/-- ASCII codes of a string literal, the embedding of a Python `str` value. -/
def ascii (s : String) : List Nat :=
  s.toList.map Char.toNat

/-- Whether `48 ≤ b ≤ 57`: the byte is an ASCII decimal digit. -/
def isDigitB (b : Nat) : Bool :=
  decide (48 ≤ b) && decide (b ≤ 57)

/-- Boolean membership of a field number in a list of field numbers. -/
def memB (n : Nat) : List Nat → Bool
  | [] => false
  | k :: ks => (n == k) || memB n ks

/-! ## Field dictionary and message data model

Modelled from the spec: the `pyiso8583` field dictionary (`default_ascii`) is
not under `src/`; §4.1 of the spec fixes the supported fields and their
type/length rules, which the definitions below transcribe. -/

/-- Character class of a data element: numeric or alphanumeric. -/
inductive FKind where
  | numeric
  | an
deriving DecidableEq, Repr

/-- Length rule of a data element: fixed width, or LLVAR with a maximum. -/
inductive LenRule where
  | fixedLen (n : Nat)
  | llvar (maxLen : Nat)
deriving DecidableEq, Repr

/-- A field description of the dictionary: kind and length rule. -/
structure FieldSpec where
  kind : FKind
  rule : LenRule
deriving DecidableEq, Repr

/-- Modelled from the spec: the field dictionary of §4.1 (the `pyiso8583`
dictionary itself is not under `src/`).  The spec gives no maximum for LLVAR
field 35, so the generic 2-digit LLVAR cap 99 is used. -/
def isoDict : List (Nat × FieldSpec) :=
  [ (2, ⟨.numeric, .llvar 19⟩),
    (3, ⟨.numeric, .fixedLen 6⟩),
    (4, ⟨.numeric, .fixedLen 12⟩),
    (7, ⟨.numeric, .fixedLen 10⟩),
    (11, ⟨.numeric, .fixedLen 6⟩),
    (12, ⟨.numeric, .fixedLen 6⟩),
    (14, ⟨.numeric, .fixedLen 4⟩),
    (18, ⟨.numeric, .fixedLen 4⟩),
    (22, ⟨.an, .fixedLen 3⟩),
    (25, ⟨.an, .fixedLen 2⟩),
    (35, ⟨.an, .llvar 99⟩),
    (39, ⟨.an, .fixedLen 2⟩),
    (41, ⟨.an, .fixedLen 8⟩),
    (49, ⟨.numeric, .fixedLen 3⟩) ]

/-- Dictionary lookup, `none` for an unregistered field number. -/
def lookupSpec (k : Nat) : Option FieldSpec :=
  isoDict.lookup k

/-- An ISO8583 message: 4-byte MTI and the sparse field map, kept as an
association list in ascending field-number order (the canonical form of the
spec's `FieldMap`, whose key order is irrelevant). -/
structure Message where
  mti : List Nat
  fields : List (Nat × List Nat)
deriving DecidableEq, Repr

/-- The field numbers populated in a field map, in list order. -/
def keysOf (es : List (Nat × List Nat)) : List Nat :=
  es.map Prod.fst

/-- Errors of the codec, the spec's `EncodingError` / `UnknownField` /
`DecodingError{TruncatedMessage|MalformedField}` taxonomy (§4.2, §7). -/
inductive CodecErr where
  | badMTI
  | missingRequired
  | badValue
  | unknownField
  | truncated
  | malformed
deriving DecidableEq, Repr

/-- Character-class check of a value against a field kind. -/
def kindOK (fs : FieldSpec) (v : List Nat) : Bool :=
  match fs.kind with
  | .numeric => v.all isDigitB
  | .an => true

/-- Pad a value to fixed width `n`: zero-padding on the left for numeric
fields, space-padding on the right otherwise (spec §4.2). -/
def padVal (fs : FieldSpec) (n : Nat) (v : List Nat) : List Nat :=
  match fs.kind with
  | .numeric => List.replicate (n - v.length) 48 ++ v
  | .an => v ++ List.replicate (n - v.length) 32

/-- Modelled from the spec: encoding of one field value (§4.2).  A fixed-width
field is emitted at exactly its width (padded if short); an LLVAR field is
prefixed with its 2-digit decimal length.  Violating the length rule or the
character class is an `EncodingError` (here `.badValue`). -/
def encodeField (fs : FieldSpec) (v : List Nat) : Except CodecErr (List Nat) :=
  match fs.rule with
  | .fixedLen n =>
    if decide (n < v.length) || !(kindOK fs v) then .error .badValue
    else .ok (padVal fs n v)
  | .llvar maxLen =>
    if decide (maxLen < v.length) || decide (99 < v.length) || !(kindOK fs v) then
      .error .badValue
    else .ok ((v.length / 10 + 48) :: (v.length % 10 + 48) :: v)

/-- Modelled from the spec: decoding of one field value (§4.2), returning the
value and the unconsumed remainder of the byte stream. -/
def decodeField (fs : FieldSpec) (input : List Nat) : Except CodecErr (List Nat × List Nat) :=
  match fs.rule with
  | .fixedLen n =>
    if decide (input.length < n) then .error .truncated
    else .ok (input.take n, input.drop n)
  | .llvar _ =>
    match input with
    | d1 :: d2 :: rest =>
      if isDigitB d1 && isDigitB d2 then
        let l := (d1 - 48) * 10 + (d2 - 48)
        if decide (rest.length < l) then .error .truncated
        else .ok (rest.take l, rest.drop l)
      else .error .malformed
    | _ => .error .truncated

/-- Encoding of a field map: each present field's bytes in list order
(ascending field number for a canonical map), dictionary lookup per field. -/
def encodeFieldsE : List (Nat × List Nat) → Except CodecErr (List Nat)
  | [] => .ok []
  | (k, v) :: tl =>
    match lookupSpec k with
    | none => .error .unknownField
    | some fs =>
      match encodeField fs v with
      | .error e => .error e
      | .ok w =>
        match encodeFieldsE tl with
        | .error e => .error e
        | .ok ws => .ok (w ++ ws)

/-- Modelled from the spec: the decode walk of §4.2 — one boolean per bitmap
position starting at field number `n`, reading each present field with its
dictionary rule, in ascending order. -/
def decodeFields : Nat → List Bool → List Nat → Except CodecErr (List (Nat × List Nat) × List Nat)
  | _, [], input => .ok ([], input)
  | n, false :: bs, input => decodeFields (n + 1) bs input
  | n, true :: bs, input =>
    match lookupSpec n with
    | none => .error .unknownField
    | some fs =>
      match decodeField fs input with
      | .error e => .error e
      | .ok (v, rest) =>
        match decodeFields (n + 1) bs rest with
        | .error e => .error e
        | .ok (es, rest2) => .ok ((n, v) :: es, rest2)

/-- Presence bits for `len` consecutive field numbers starting at `n`. -/
def presBits : Nat → Nat → List Nat → List Bool
  | _, 0, _ => []
  | n, len + 1, ks => memB n ks :: presBits (n + 1) len ks

/-- One bitmap byte from its 8 bits, most significant bit first. -/
def byteOfBits : List Bool → Nat
  | [] => 0
  | b :: bs => (if b then 2 ^ bs.length else 0) + byteOfBits bs

/-- The 8 bits of a bitmap byte, most significant bit first. -/
def bitsOfByte (n : Nat) : List Bool :=
  [ n / 128 % 2 == 1, n / 64 % 2 == 1, n / 32 % 2 == 1, n / 16 % 2 == 1,
    n / 8 % 2 == 1, n / 4 % 2 == 1, n / 2 % 2 == 1, n % 2 == 1 ]

/-- Pack a bit list into bytes, 8 bits per byte (trailing bits short of a full
byte are dropped; the bitmap always has a multiple of 8 bits). -/
def bytesOfBits : List Bool → List Nat
  | b0 :: b1 :: b2 :: b3 :: b4 :: b5 :: b6 :: b7 :: rest =>
    byteOfBits [b0, b1, b2, b3, b4, b5, b6, b7] :: bytesOfBits rest
  | _ => []

/-- Unpack bytes into their bits, 8 bits per byte, in order. -/
def bitsOfBytes : List Nat → List Bool
  | [] => []
  | x :: xs => bitsOfByte x ++ bitsOfBytes xs

/-- The MTI is a 4-digit numeric string (spec §3). -/
def mtiOK (m : Message) : Bool :=
  (m.mti.length == 4) && m.mti.all isDigitB

/-- MTI "0100" requires at minimum fields 2, 3, 4, 7, 11 (spec §4.2). -/
def req0100 (es : List (Nat × List Nat)) : Bool :=
  [2, 3, 4, 7, 11].all (fun k => memB k (keysOf es))

/-- Value validity against the dictionary constraints: exact width for a fixed
field, length within the LLVAR cap, character class respected. -/
def fieldOK (fs : FieldSpec) (v : List Nat) : Bool :=
  kindOK fs v &&
    match fs.rule with
    | .fixedLen n => v.length == n
    | .llvar maxLen => decide (v.length ≤ maxLen) && decide (v.length ≤ 99)

/-- The field map is in strictly ascending field-number order with every key at
least `n`, at most 64 (primary bitmap only), registered in the dictionary, and
every value valid for its field. -/
def entriesOK : Nat → List (Nat × List Nat) → Bool
  | _, [] => true
  | n, (k, v) :: tl =>
    match lookupSpec k with
    | none => false
    | some fs =>
      decide (n ≤ k) && decide (k ≤ 64) && fieldOK fs v && entriesOK (k + 1) tl

/-- A message within the dictionary constraints (spec §3 and §8 item 1). -/
def validMsg (m : Message) : Bool :=
  mtiOK m && entriesOK 2 m.fields &&
    (if m.mti = ascii "0100" then req0100 m.fields else true)

/-- Modelled from the spec: `encode` of §4.2 — 4-byte MTI, 8-byte primary
bitmap (bit 0 = field 1, big-endian bit numbering, binary encoding), then each
present field in ascending order. -/
def encode (m : Message) : Except CodecErr (List Nat) :=
  if !(mtiOK m) then .error .badMTI
  else if m.mti = ascii "0100" && !(req0100 m.fields) then .error .missingRequired
  else
    match encodeFieldsE m.fields with
    | .error e => .error e
    | .ok body => .ok (m.mti ++ bytesOfBits (presBits 1 64 (keysOf m.fields)) ++ body)

/-- Modelled from the spec: `decode` of §4.2 — read the 4-byte MTI and the
8-byte primary bitmap, then walk bit positions 2..64 in ascending order; a
stream ending early is a `TruncatedMessage`, unconsumed trailing bytes are
malformed. -/
def decode (bs : List Nat) : Except CodecErr Message :=
  if decide (bs.length < 12) then .error .truncated
  else
    match decodeFields 2 ((bitsOfBytes ((bs.drop 4).take 8)).drop 1) (bs.drop 12) with
    | .error e => .error e
    | .ok (es, leftover) =>
      if leftover.isEmpty then .ok ⟨bs.take 4, es⟩ else .error .malformed

/-! ## Framing transport (from `src/iso_client.py`) -/

/-- One event on the read side of the socket: a delivered group of bytes, or a
`socket.timeout` raised by `recv`.  An empty byte group, like an exhausted
event queue, stands for the peer having closed the connection (`recv`
returning `b''`). -/
inductive Chunk where
  | data (bytes : List Nat)
  | timeout
deriving DecidableEq, Repr

/-- The exceptions the Python function can catch, one constructor per distinct
raise site or failure source. -/
inductive ErrKind where
  | connectError
  | writeError
  | timedOut
  | frameOverflow
  | headerIncomplete
  | connectionBroken
  | encodingError (e : CodecErr)
  | decodingError (e : CodecErr)
  | missingField
deriving DecidableEq, Repr

/-- Lifecycle of the TCP socket of one call. -/
inductive SockState where
  | notCreated
  | opened
  | closed
deriving DecidableEq, Repr

/-- The abstract network seen by one call: whether `connect` succeeds, whether
`sendall` succeeds, and the read-side arrivals. -/
structure NetEnv where
  connectOk : Bool
  sendOk : Bool
  arrivals : List Chunk
deriving DecidableEq, Repr

/-- The call `struct.pack("!H", n)`: the 2-byte big-endian encoding of `n`, raising
(`struct.error`) when `n` does not fit in 16 bits — it never truncates or
wraps. -/
def pack16 (n : Nat) : Except ErrKind (List Nat) :=
  if decide (n ≤ 65535) then .ok [n / 256, n % 256] else .error .frameOverflow

/-- Line 35, `msg_with_len = struct.pack("!H", len(msg)) + msg`. -/
def msgWithLen (msg : List Nat) : Except ErrKind (List Nat) :=
  match pack16 msg.length with
  | .error e => .error e
  | .ok hdr => .ok (hdr ++ msg)

/-- Lines 38-42, `raw_len = sock.recv(2)` followed by the length check: a
single `recv` of at most 2 bytes; if it returns fewer than 2 bytes — because
the peer closed, or because only 1 byte was buffered — the code raises
"Incomplete 2-byte header received"; otherwise `struct.unpack("!H", raw_len)`.
Returns the announced length and the unread remainder of the arrivals. -/
def recvHeader : List Chunk → Except ErrKind (Nat × List Chunk)
  | [] => .error .headerIncomplete
  | .timeout :: _ => .error .timedOut
  | .data [] :: _ => .error .headerIncomplete
  | .data [_] :: _ => .error .headerIncomplete
  | .data (b0 :: b1 :: rest) :: cs =>
    .ok (b0 * 256 + b1, if rest.isEmpty then cs else .data rest :: cs)

/-- The body-read loop (lines 43-47): `while len(response) < length`, one
`recv(length - len(response))` per iteration, raising "Socket connection
broken" when `recv` returns `b''`.  `fuel` only bounds the recursion; the
wrapper `recvExact` supplies `fuel = needed`, which suffices because every
successful iteration consumes at least one byte. -/
def recvExactAux : Nat → Nat → List Chunk → Except ErrKind (List Nat × List Chunk)
  | _, 0, chunks => .ok ([], chunks)
  | 0, _ + 1, _ => .error .connectionBroken
  | fuel + 1, needed + 1, chunks =>
    match chunks with
    | [] => .error .connectionBroken
    | .timeout :: _ => .error .timedOut
    | .data [] :: _ => .error .connectionBroken
    | .data (b :: bs) :: cs =>
      let got := (b :: bs).take (needed + 1)
      let rem := (b :: bs).drop (needed + 1)
      match recvExactAux fuel (needed + 1 - got.length) (if rem.isEmpty then cs else .data rem :: cs) with
      | .error e => .error e
      | .ok (more, rest) => .ok (got ++ more, rest)

/-- The body-read loop entry point: read exactly `needed` bytes or fail. -/
def recvExact (needed : Nat) (chunks : List Chunk) : Except ErrKind (List Nat × List Chunk) :=
  recvExactAux needed needed chunks

/-- All arrivals are data deliveries (no read timeout among them). -/
def allData : List Chunk → Bool
  | [] => true
  | .data _ :: cs => allData cs
  | .timeout :: _ => false

/-- Total number of bytes delivered by the arrivals before the close. -/
def totalBytesOf : List Chunk → Nat
  | [] => 0
  | .data c :: cs => c.length + totalBytesOf cs
  | .timeout :: cs => totalBytesOf cs

/-- Lines 31-48 of the source: create the socket, connect, frame and send the
request, read the length header and the body, close the socket on the success
path.  Returns the response body (or the raised error) together with the final
socket state; no branch of the source closes the socket on a failure. -/
def exchange (env : NetEnv) (msgBytes : List Nat) : Except ErrKind (List Nat) × SockState :=
  if !env.connectOk then (.error .connectError, .opened)
  else
    match msgWithLen msgBytes with
    | .error e => (.error e, .opened)
    | .ok _frame =>
      if !env.sendOk then (.error .writeError, .opened)
      else
        match recvHeader env.arrivals with
        | .error e => (.error e, .opened)
        | .ok (len, rest) =>
          match recvExact len rest with
          | .error e => (.error e, .opened)
          | .ok (body, _) => (.ok body, .closed)

/-! ## Authorization orchestrator (from `src/iso_client.py`) -/

/-- Decimal digits of `n`, most significant first, as ASCII bytes; `fuel`
bounds the recursion and `natDigits` supplies `n + 1`, which always
suffices. -/
def digitsAux : Nat → Nat → List Nat
  | 0, _ => []
  | fuel + 1, n =>
    if decide (n < 10) then [n + 48]
    else digitsAux fuel (n / 10) ++ [n % 10 + 48]

/-- Decimal rendering of a natural number as ASCII bytes (`str(n)`). -/
def natDigits (n : Nat) : List Nat :=
  digitsAux (n + 1) n

/-- Zero-pad a byte string on the left to a minimum width (`f"{n:012}"` style
formatting of a non-negative integer). -/
def padLeft0 (w : Nat) (l : List Nat) : List Nat :=
  List.replicate (w - l.length) 48 ++ l

/-- Line 18, the format `amount_cents:012`: decimal, zero-padded on the left to a
minimum width of 12. -/
def amt12 (amountCents : Nat) : List Nat :=
  padLeft0 12 (natDigits amountCents)

/-- Lines 12-27 of the source: the authorization request message.  `now` is
the formatted UTC timestamp `now.strftime("%m%d%H%M%S")`. -/
def buildMessage (pan expiry cvv : List Nat) (amountCents : Nat) (now : List Nat) : Message :=
  { mti := ascii "0100",
    fields :=
      [ (2, pan),
        (3, ascii "000000"),
        (4, amt12 amountCents),
        (7, now),
        (11, ascii "123456"),
        (14, expiry),
        (18, ascii "5999"),
        (22, ascii "901"),
        (25, ascii "00"),
        (35, pan ++ ascii "D" ++ expiry ++ cvv),
        (41, ascii "TERMID01"),
        (49, ascii "840") ] }

/-- The data of the success dictionary (lines 54-60). -/
structure SuccessData where
  approved : Bool
  field39 : List Nat
  mti : List Nat
  amountReceived : List Nat
  transactionTime : List Nat
deriving DecidableEq, Repr

/-- The returned dictionary: `mti`/`amount_received`/`transaction_time` are
present only in the success dictionary, `error` only in the failure
dictionary (`Option` models the absent keys). -/
structure AuthResult where
  approved : Bool
  field39 : List Nat
  mti : Option (List Nat)
  amountReceived : Option (List Nat)
  transactionTime : Option (List Nat)
  error : Option ErrKind
deriving DecidableEq, Repr

/-- Lines 54-60: read field 39, the MTI, field 4 and field 12 of the decoded
response and compute `approved = (get_bit(39) == "00")`.  `get_bit` of an
absent field is modelled as a raised error (the `pyiso8583` accessor is not
under `src/`; any exception here is caught by the same handler). -/
def mkDecision (m : Message) : Except ErrKind SuccessData :=
  match m.fields.lookup 39 with
  | none => .error .missingField
  | some f39 =>
    match m.fields.lookup 4 with
    | none => .error .missingField
    | some f4 =>
      match m.fields.lookup 12 with
      | none => .error .missingField
      | some f12 => .ok ⟨decide (f39 = ascii "00"), f39, m.mti, f4, f12⟩

/-- The whole `send_iso_authorization` body: build, encode, exchange, decode,
decide — with the final socket state.  The `except` branch (lines 62-68)
produces `{"approved": False, "error": str(e), "field39": "96"}`. -/
def runAuth (env : NetEnv) (_host : List Nat) (_port : Nat) (pan expiry cvv : List Nat)
    (amountCents : Nat) (now : List Nat) : AuthResult × SockState :=
  match encode (buildMessage pan expiry cvv amountCents now) with
  | .error ce => (⟨false, ascii "96", none, none, none, some (.encodingError ce)⟩, .notCreated)
  | .ok reqBytes =>
    match exchange env reqBytes with
    | (.error e, st) => (⟨false, ascii "96", none, none, none, some e⟩, st)
    | (.ok body, st) =>
      match decode body with
      | .error de => (⟨false, ascii "96", none, none, none, some (.decodingError de)⟩, st)
      | .ok m =>
        match mkDecision m with
        | .error e => (⟨false, ascii "96", none, none, none, some e⟩, st)
        | .ok d => (⟨d.approved, d.field39, some d.mti, some d.amountReceived, some d.transactionTime, none⟩, st)

/-- The function `send_iso_authorization`: the dictionary the caller receives. -/
def authorize (env : NetEnv) (host : List Nat) (port : Nat) (pan expiry cvv : List Nat)
    (amountCents : Nat) (now : List Nat) : AuthResult :=
  (runAuth env host port pan expiry cvv amountCents now).1

/-- The state of the TCP socket when `send_iso_authorization` returns. -/
def sockAfter (env : NetEnv) (host : List Nat) (port : Nat) (pan expiry cvv : List Nat)
    (amountCents : Nat) (now : List Nat) : SockState :=
  (runAuth env host port pan expiry cvv amountCents now).2

/-! ## Lemmas about decimal rendering -/

lemma digitsAux_digits : ∀ fuel n, (digitsAux fuel n).all isDigitB = true := by
  intro fuel
  induction fuel with
  | zero => intro n; rfl
  | succ f ih =>
    intro n
    unfold digitsAux
    split
    · rename_i h
      simp only [decide_eq_true_eq] at h
      simp only [List.all_cons, List.all_nil, Bool.and_true, isDigitB,
        Bool.and_eq_true, decide_eq_true_eq]
      omega
    · rename_i h
      simp only [List.all_append, ih, List.all_cons, List.all_nil, Bool.and_true,
        Bool.true_and, isDigitB, Bool.and_eq_true, decide_eq_true_eq]
      omega

lemma digitsAux_len : ∀ fuel k n, n < fuel → 1 ≤ k → n < 10 ^ k →
    (digitsAux fuel n).length ≤ k := by
  intro fuel
  induction fuel with
  | zero => intro k n h; omega
  | succ f ih =>
    intro k n hf hk hnk
    unfold digitsAux
    split
    · simp only [List.length_cons, List.length_nil]; omega
    · rename_i h10
      simp only [decide_eq_true_eq, Nat.not_lt] at h10
      rcases k with _ | k'
      · omega
      rcases k' with _ | k''
      · norm_num at hnk; omega
      have h1 : n / 10 < f := by
        have hd : n / 10 < n := Nat.div_lt_self (by omega) (by omega)
        omega
      have h2 : n / 10 < 10 ^ (k'' + 1) := by
        have := (Nat.div_lt_iff_lt_mul (show 0 < 10 by norm_num)).2
          (by rw [← pow_succ]; exact hnk)
        exact this
      have h3 := ih (k'' + 1) (n / 10) h1 (by omega) h2
      simp only [List.length_append, List.length_cons, List.length_nil]
      omega

lemma replicate48_digits : ∀ m, (List.replicate m 48).all isDigitB = true := by
  intro m
  induction m with
  | zero => rfl
  | succ w ih => simp only [List.replicate_succ, List.all_cons, ih, Bool.and_true]; decide

lemma amt12_digits (a : Nat) : (amt12 a).all isDigitB = true := by
  simp only [amt12, padLeft0, List.all_append, natDigits, digitsAux_digits,
    replicate48_digits, Bool.and_self]

lemma amt12_len (a : Nat) (h : a < 10 ^ 12) : (amt12 a).length = 12 := by
  have hd := digitsAux_len (a + 1) 12 a (by omega) (by norm_num) h
  simp only [amt12, padLeft0, natDigits, List.length_append, List.length_replicate]
  omega

/-! ## Claim theorems about the built request message -/

/-- C4 (amended): every request message has MTI "0100", populated fields
exactly {2, 3, 4, 7, 11, 14, 18, 22, 25, 35, 41, 49}, field 3 = "000000", and
field 4 = `amount_cents` in decimal, zero-padded on the left to a minimum
width of 12 — exactly 12 digits whenever `amount_cents < 10^12` (a larger
amount yields a longer string, never a truncated one). -/
theorem build_message_canonical (pan expiry cvv : List Nat) (a : Nat) (now : List Nat) :
    (buildMessage pan expiry cvv a now).mti = ascii "0100" ∧
    keysOf (buildMessage pan expiry cvv a now).fields =
      [2, 3, 4, 7, 11, 14, 18, 22, 25, 35, 41, 49] ∧
    (buildMessage pan expiry cvv a now).fields.lookup 3 = some (ascii "000000") ∧
    (buildMessage pan expiry cvv a now).fields.lookup 4 = some (amt12 a) ∧
    (amt12 a).all isDigitB = true ∧
    (a < 10 ^ 12 → (amt12 a).length = 12) :=
  ⟨rfl, rfl, rfl, rfl, amt12_digits a, amt12_len a⟩

/-- C4 counterexample: at `amount_cents = 10^12` the built message's field 4
is the 13-character string "1000000000000", not a 12-digit string, refuting
the claim as stated. -/
theorem build_message_field4_not_always_12 :
    (buildMessage (ascii "4111111111111111") (ascii "2512") (ascii "123") (10 ^ 12)
        (ascii "0101120000")).fields.lookup 4 = some (ascii "1000000000000") ∧
    (ascii "1000000000000").length ≠ 12 := by
  constructor
  · decide
  · decide

/-- C4 witness: at `amount_cents = 1000` field 4 is "000000001000". -/
theorem build_message_canonical_w :
    (buildMessage (ascii "4111111111111111") (ascii "2512") (ascii "123") 1000
        (ascii "0101120000")).fields.lookup 4 = some (amt12 1000) ∧
    (amt12 1000).length = 12 ∧ amt12 1000 = ascii "000000001000" := by
  have h := build_message_canonical (ascii "4111111111111111") (ascii "2512") (ascii "123")
    1000 (ascii "0101120000")
  exact ⟨h.2.2.2.1, h.2.2.2.2.2 (by norm_num), by decide⟩

/-- C9: field 11 (system trace audit number) of the built message is the
constant "123456", so any two authorization calls carry the same trace
number. -/
theorem trace_number_constant (pan expiry cvv : List Nat) (a : Nat) (now : List Nat)
    (pan' expiry' cvv' : List Nat) (a' : Nat) (now' : List Nat) :
    (buildMessage pan expiry cvv a now).fields.lookup 11 = some (ascii "123456") ∧
    (buildMessage pan' expiry' cvv' a' now').fields.lookup 11 =
      (buildMessage pan expiry cvv a now).fields.lookup 11 :=
  ⟨rfl, rfl⟩

/-- C10: field 35 (track-2-equivalent data) of the built message is exactly
`pan ++ "D" ++ expiry ++ cvv` — the caller's CVV embedded verbatim as the
discretionary data. -/
theorem track2_embeds_cvv (pan expiry cvv : List Nat) (a : Nat) (now : List Nat) :
    (buildMessage pan expiry cvv a now).fields.lookup 35 =
      some (pan ++ ascii "D" ++ expiry ++ cvv) :=
  rfl

/-! ## Claim theorems about framing -/

/-- C7: a transmitted frame is a 2-byte big-endian length followed by the
payload; the two prefix bytes are genuine bytes recombining to the payload
length, and a payload longer than 65535 bytes makes `struct.pack("!H", ...)`
raise a hard error (caught at the boundary) rather than truncate or wrap. -/
theorem frame_has_correct_length (payload : List Nat) :
    (payload.length ≤ 65535 →
      msgWithLen payload = .ok (payload.length / 256 :: payload.length % 256 :: payload) ∧
      payload.length / 256 * 256 + payload.length % 256 = payload.length ∧
      payload.length / 256 < 256 ∧ payload.length % 256 < 256) ∧
    (65535 < payload.length → msgWithLen payload = .error .frameOverflow) := by
  constructor
  · intro h
    refine ⟨?_, ?_, ?_, ?_⟩
    · simp [msgWithLen, pack16, h]
    · omega
    · omega
    · omega
  · intro h
    simp only [msgWithLen, pack16]
    rw [if_neg (by simp; omega)]

/-- C7 witness: a 1-byte payload frames as `[0, 1] ++ payload`; a
70000-byte payload is rejected. -/
theorem frame_has_correct_length_w :
    msgWithLen [7] = .ok [0, 1, 7] ∧
    msgWithLen (List.replicate 70000 0) = .error .frameOverflow := by
  constructor
  · exact ((frame_has_correct_length [7]).1 (by norm_num)).1
  · exact (frame_has_correct_length (List.replicate 70000 0)).2
      (by rw [List.length_replicate]; norm_num)

/-- C6: the code issues a single `recv(2)` for the length header and raises
"Incomplete 2-byte header received" whenever that one `recv` returns fewer
than 2 bytes.  On a stream that delivers the 2 header bytes split across two
separate arrivals — 2 bytes total, no timeout, before any close — the receive
step therefore fails instead of reading the header, contradicting the claim. -/
theorem split_header_rejected :
    recvHeader [Chunk.data [0], Chunk.data [9]] = .error .headerIncomplete ∧
    totalBytesOf [Chunk.data [0], Chunk.data [9]] = 2 ∧
    allData [Chunk.data [0], Chunk.data [9]] = true := by
  refine ⟨rfl, rfl, rfl⟩

/-! ## Codec round-trip lemmas -/

lemma bitsOfByte_byteOfBits (b0 b1 b2 b3 b4 b5 b6 b7 : Bool) :
    bitsOfByte (byteOfBits [b0, b1, b2, b3, b4, b5, b6, b7]) =
      [b0, b1, b2, b3, b4, b5, b6, b7] := by
  cases b0 <;> cases b1 <;> cases b2 <;> cases b3 <;>
    cases b4 <;> cases b5 <;> cases b6 <;> cases b7 <;> rfl

lemma bits_bytes_rt : ∀ n bits, bits.length = 8 * n →
    bitsOfBytes (bytesOfBits bits) = bits ∧ (bytesOfBits bits).length = n := by
  intro n
  induction n with
  | zero =>
    intro bits h
    cases bits with
    | nil => exact ⟨rfl, rfl⟩
    | cons b bs => simp at h
  | succ k ih =>
    intro bits h
    rcases bits with _ | ⟨b0, bits⟩
    · exfalso; simp only [List.length_nil] at h; omega
    rcases bits with _ | ⟨b1, bits⟩
    · exfalso; simp only [List.length_cons, List.length_nil] at h; omega
    rcases bits with _ | ⟨b2, bits⟩
    · exfalso; simp only [List.length_cons, List.length_nil] at h; omega
    rcases bits with _ | ⟨b3, bits⟩
    · exfalso; simp only [List.length_cons, List.length_nil] at h; omega
    rcases bits with _ | ⟨b4, bits⟩
    · exfalso; simp only [List.length_cons, List.length_nil] at h; omega
    rcases bits with _ | ⟨b5, bits⟩
    · exfalso; simp only [List.length_cons, List.length_nil] at h; omega
    rcases bits with _ | ⟨b6, bits⟩
    · exfalso; simp only [List.length_cons, List.length_nil] at h; omega
    rcases bits with _ | ⟨b7, bits⟩
    · exfalso; simp only [List.length_cons, List.length_nil] at h; omega
    have hlen : bits.length = 8 * k := by
      simp only [List.length_cons] at h; omega
    obtain ⟨ih1, ih2⟩ := ih bits hlen
    constructor
    · show bitsOfByte (byteOfBits [b0, b1, b2, b3, b4, b5, b6, b7]) ++
        bitsOfBytes (bytesOfBits bits) = _
      rw [bitsOfByte_byteOfBits, ih1]
      rfl
    · show (byteOfBits [b0, b1, b2, b3, b4, b5, b6, b7] :: bytesOfBits bits).length = k + 1
      simp only [List.length_cons, ih2]

lemma presBits_length : ∀ len n ks, (presBits n len ks).length = len := by
  intro len
  induction len with
  | zero => intro n ks; rfl
  | succ l ih => intro n ks; simp only [presBits, List.length_cons, ih]

lemma presBits_shift : ∀ len n k ks, k < n →
    presBits n len (k :: ks) = presBits n len ks := by
  intro len
  induction len with
  | zero => intro n k ks _; rfl
  | succ l ih =>
    intro n k ks hk
    have hne : (n == k) = false := by
      simp only [beq_eq_false_iff_ne]
      omega
    simp only [presBits, memB, hne, Bool.false_or]
    rw [ih (n + 1) k ks (by omega)]

lemma memB_lb : ∀ es n j, entriesOK n es = true → j < n →
    memB j (keysOf es) = false := by
  intro es
  induction es with
  | nil => intro n j _ _; rfl
  | cons hd tl ih =>
    obtain ⟨k, v⟩ := hd
    intro n j hok hj
    unfold entriesOK at hok
    cases hfs : lookupSpec k with
    | none => rw [hfs] at hok; cases hok
    | some fs =>
      rw [hfs] at hok
      simp only [Bool.and_eq_true, decide_eq_true_eq] at hok
      obtain ⟨⟨⟨hnk, _⟩, _⟩, htl⟩ := hok
      have hne : (j == k) = false := by
        simp only [beq_eq_false_iff_ne]
        omega
      show ((j == k) || memB j (keysOf tl)) = false
      rw [hne, ih (k + 1) j htl (by omega)]
      rfl

lemma encodeField_rt (fs : FieldSpec) (v : List Nat) (h : fieldOK fs v = true) :
    ∃ w, encodeField fs v = .ok w ∧
      ∀ rest, decodeField fs (w ++ rest) = .ok (v, rest) := by
  obtain ⟨kd, rl⟩ := fs
  cases rl with
  | fixedLen n =>
    simp only [fieldOK, Bool.and_eq_true, beq_iff_eq] at h
    obtain ⟨hkind, hlen⟩ := h
    refine ⟨v, ?_, ?_⟩
    · have h1 : decide (n < v.length) = false := by simp; omega
      simp only [encodeField, h1, hkind, Bool.not_true, Bool.or_false, Bool.false_or]
      cases kd <;> simp [padVal, hlen]
    · intro rest
      have h2 : decide ((v ++ rest).length < n) = false := by
        simp only [decide_eq_false_iff_not, List.length_append, Nat.not_lt]
        omega
      simp only [decodeField, h2, Bool.false_eq_true, if_false,
        List.take_left' hlen, List.drop_left' hlen]
  | llvar maxLen =>
    simp only [fieldOK, Bool.and_eq_true, decide_eq_true_eq] at h
    obtain ⟨hkind, hmax, h99⟩ := h
    refine ⟨(v.length / 10 + 48) :: (v.length % 10 + 48) :: v, ?_, ?_⟩
    · have h1 : decide (maxLen < v.length) = false := by simp; omega
      have h2 : decide (99 < v.length) = false := by simp; omega
      simp only [encodeField, h1, h2, hkind, Bool.not_true, Bool.or_false, Bool.false_or,
        Bool.false_eq_true, if_false]
    · intro rest
      have hd1 : isDigitB (v.length / 10 + 48) = true := by
        simp only [isDigitB, Bool.and_eq_true, decide_eq_true_eq]
        omega
      have hd2 : isDigitB (v.length % 10 + 48) = true := by
        simp only [isDigitB, Bool.and_eq_true, decide_eq_true_eq]
        omega
      have hl : (v.length / 10 + 48 - 48) * 10 + (v.length % 10 + 48 - 48) = v.length := by
        omega
      have h3 : decide ((v ++ rest).length < v.length) = false := by
        simp only [decide_eq_false_iff_not, List.length_append, Nat.not_lt]
        omega
      simp only [decodeField, List.cons_append, hd1, hd2, Bool.and_self, if_true, hl, h3,
        Bool.false_eq_true, if_false, List.take_left' rfl, List.drop_left' rfl]

lemma decodeFields_true_cons (n : Nat) (bs : List Bool) (input : List Nat) :
    decodeFields n (true :: bs) input =
      (match lookupSpec n with
        | none => Except.error CodecErr.unknownField
        | some fs =>
          match decodeField fs input with
          | Except.error e => Except.error e
          | Except.ok (v, rest) =>
            match decodeFields (n + 1) bs rest with
            | Except.error e => Except.error e
            | Except.ok (es, rest2) => Except.ok ((n, v) :: es, rest2)) := rfl

lemma codec_fields_rt : ∀ len n es, n + len = 65 → entriesOK n es = true →
    ∃ out, encodeFieldsE es = .ok out ∧
      ∀ rest, decodeFields n (presBits n len (keysOf es)) (out ++ rest) = .ok (es, rest) := by
  intro len
  induction len with
  | zero =>
    intro n es hn hok
    cases es with
    | nil => exact ⟨[], rfl, fun rest => rfl⟩
    | cons hd tl =>
      exfalso
      obtain ⟨k, v⟩ := hd
      unfold entriesOK at hok
      cases hfs : lookupSpec k with
      | none => rw [hfs] at hok; cases hok
      | some fs =>
        rw [hfs] at hok
        simp only [Bool.and_eq_true, decide_eq_true_eq] at hok
        obtain ⟨⟨⟨h1, h2⟩, _⟩, _⟩ := hok
        omega
  | succ len ih =>
    intro n es hn hok
    cases es with
    | nil =>
      obtain ⟨out, hout, hdec⟩ := ih (n + 1) [] (by omega) rfl
      have hout' : ([] : List Nat) = out := by
        simpa only [encodeFieldsE, Except.ok.injEq] using hout
      refine ⟨[], rfl, fun rest => ?_⟩
      rw [← hout'] at hdec
      exact hdec rest
    | cons hd tl =>
      obtain ⟨k, v⟩ := hd
      unfold entriesOK at hok
      cases hfs : lookupSpec k with
      | none => rw [hfs] at hok; cases hok
      | some fs =>
        rw [hfs] at hok
        simp only [Bool.and_eq_true, decide_eq_true_eq] at hok
        obtain ⟨⟨⟨hnk, hk64⟩, hfv⟩, htl⟩ := hok
        by_cases hkn : k = n
        · subst hkn
          obtain ⟨w, hw, hwdec⟩ := encodeField_rt fs v hfv
          obtain ⟨out, hout, hdec⟩ := ih (k + 1) tl (by omega) htl
          refine ⟨w ++ out, ?_, ?_⟩
          · simp only [encodeFieldsE, hfs, hw, hout]
          · intro rest
            have hmem : memB k (keysOf ((k, v) :: tl)) = true := by
              show ((k == k) || memB k (keysOf tl)) = true
              simp
            have hshift : presBits (k + 1) len (k :: keysOf tl) =
                presBits (k + 1) len (keysOf tl) :=
              presBits_shift len (k + 1) k (keysOf tl) (by omega)
            show decodeFields k (memB k (keysOf ((k, v) :: tl)) ::
              presBits (k + 1) len (keysOf ((k, v) :: tl)))
              ((w ++ out) ++ rest) = Except.ok ((k, v) :: tl, rest)
            rw [hmem]
            show decodeFields k (true :: presBits (k + 1) len (k :: keysOf tl))
              ((w ++ out) ++ rest) = Except.ok ((k, v) :: tl, rest)
            rw [hshift, List.append_assoc, decodeFields_true_cons]
            simp only [hfs, hwdec (out ++ rest), hdec rest]
        · have hok' : entriesOK (n + 1) ((k, v) :: tl) = true := by
            unfold entriesOK
            rw [hfs]
            simp only [Bool.and_eq_true, decide_eq_true_eq]
            exact ⟨⟨⟨by omega, hk64⟩, hfv⟩, htl⟩
          obtain ⟨out, hout, hdec⟩ := ih (n + 1) ((k, v) :: tl) (by omega) hok'
          refine ⟨out, hout, fun rest => ?_⟩
          have hmem : memB n (keysOf ((k, v) :: tl)) = false := by
            have h1 : (n == k) = false := by
              simp only [beq_eq_false_iff_ne]
              omega
            show ((n == k) || memB n (keysOf tl)) = false
            rw [h1, memB_lb tl (k + 1) n htl (by omega)]
            rfl
          show decodeFields n (memB n (keysOf ((k, v) :: tl)) ::
            presBits (n + 1) len (keysOf ((k, v) :: tl))) (out ++ rest) = _
          rw [hmem]
          exact hdec rest

/-- C8: the codec round-trips — for every message within the dictionary
constraints, encoding succeeds and decoding the produced bytes yields the
original message (same MTI, same field map). -/
theorem codec_round_trip (m : Message) (h : validMsg m = true) :
    ∃ bs, encode m = .ok bs ∧ decode bs = .ok m := by
  simp only [validMsg, Bool.and_eq_true] at h
  obtain ⟨⟨hmti, hents⟩, hreq⟩ := h
  obtain ⟨body, hbody, hdec⟩ := codec_fields_rt 63 2 m.fields (by omega) hents
  have hm4 : m.mti.length = 4 := by
    simp only [mtiOK, Bool.and_eq_true, beq_iff_eq] at hmti
    exact hmti.1
  have hbitslen : (presBits 1 64 (keysOf m.fields)).length = 64 :=
    presBits_length 64 1 (keysOf m.fields)
  obtain ⟨hbits, hbmlen⟩ := bits_bytes_rt 8 (presBits 1 64 (keysOf m.fields))
    (by rw [hbitslen])
  refine ⟨m.mti ++ bytesOfBits (presBits 1 64 (keysOf m.fields)) ++ body, ?_, ?_⟩
  · by_cases hc : m.mti = ascii "0100"
    · rw [if_pos hc] at hreq
      simp only [encode, hmti, Bool.not_true, Bool.false_eq_true, if_false, hc, hreq,
        Bool.and_false, hbody]
    · simp only [encode, hmti, Bool.not_true, Bool.false_eq_true, if_false, hbody]
      rw [if_neg (by simp [hc])]
  · rw [List.append_assoc]
    have hc1 : decide ((m.mti ++ (bytesOfBits (presBits 1 64 (keysOf m.fields)) ++
        body)).length < 12) = false := by
      simp only [decide_eq_false_iff_not, List.length_append, hm4, hbmlen, Nat.not_lt]
      omega
    have hd4 : (m.mti ++ (bytesOfBits (presBits 1 64 (keysOf m.fields)) ++
        body)).drop 4 = bytesOfBits (presBits 1 64 (keysOf m.fields)) ++ body :=
      List.drop_left' hm4
    have ht8 : (bytesOfBits (presBits 1 64 (keysOf m.fields)) ++ body).take 8 =
        bytesOfBits (presBits 1 64 (keysOf m.fields)) :=
      List.take_left' hbmlen
    have hd12 : (m.mti ++ (bytesOfBits (presBits 1 64 (keysOf m.fields)) ++
        body)).drop 12 = body := by
      have h1 := List.drop_drop 8 4
        (m.mti ++ (bytesOfBits (presBits 1 64 (keysOf m.fields)) ++ body))
      rw [hd4, List.drop_left' hbmlen] at h1
      norm_num at h1
      exact h1.symm
    have hdrop1 : (bitsOfBytes (bytesOfBits (presBits 1 64 (keysOf m.fields)))).drop 1 =
        presBits 2 63 (keysOf m.fields) := by
      rw [hbits]
      rfl
    have hdecf := hdec []
    rw [List.append_nil] at hdecf
    simp only [decode, hc1, Bool.false_eq_true, if_false, hd4, ht8, hdrop1, hd12, hdecf,
      List.isEmpty_nil, if_true, List.take_left' hm4]

/-- A concrete valid message exercising fixed and LLVAR fields. -/
def rtMsg0 : Message :=
  ⟨ascii "0100",
    [(2, ascii "4111111111111111"), (3, ascii "000000"), (4, ascii "000000001000"),
      (7, ascii "0101120000"), (11, ascii "123456"), (35, ascii "4111111111111111D2512123"),
      (41, ascii "TERMID01")]⟩

/-- C8 witness: a concrete valid message round-trips. -/
theorem codec_round_trip_w :
    validMsg rtMsg0 = true ∧
    ∃ bs, encode rtMsg0 = .ok bs ∧ decode bs = .ok rtMsg0 :=
  ⟨by decide, codec_round_trip rtMsg0 (by decide)⟩

/-! ## Claim theorems about the body-read loop -/

lemma recvExactAux_short : ∀ fuel needed chunks, allData chunks = true →
    totalBytesOf chunks < needed →
    recvExactAux fuel needed chunks = .error .connectionBroken := by
  intro fuel
  induction fuel with
  | zero =>
    intro needed chunks _ hlt
    cases needed with
    | zero => omega
    | succ m => rfl
  | succ f ih =>
    intro needed chunks hdata hlt
    cases needed with
    | zero => omega
    | succ m =>
      cases chunks with
      | nil => rfl
      | cons c cs =>
        cases c with
        | timeout => simp [allData] at hdata
        | data bytes =>
          cases bytes with
          | nil => rfl
          | cons b bs =>
            have hdata' : allData cs = true := hdata
            have htot : totalBytesOf (Chunk.data (b :: bs) :: cs) =
                (b :: bs).length + totalBytesOf cs := rfl
            have hblen : (b :: bs).length < m + 1 := by omega
            have hgot : ((b :: bs).take (m + 1)).length = (b :: bs).length := by
              simp only [List.length_take]
              omega
            have hrem : ((b :: bs).drop (m + 1)).isEmpty = true := by
              have : (b :: bs).drop (m + 1) = [] := by
                apply List.drop_eq_nil_of_le
                omega
              simp [this]
            show (match recvExactAux f (m + 1 - ((b :: bs).take (m + 1)).length)
                (if ((b :: bs).drop (m + 1)).isEmpty then cs
                 else Chunk.data ((b :: bs).drop (m + 1)) :: cs) with
              | .error e => .error e
              | .ok (more, rest) => .ok ((b :: bs).take (m + 1) ++ more, rest)) =
              Except.error ErrKind.connectionBroken
            rw [hrem, if_pos rfl, hgot, ih (m + 1 - (b :: bs).length) cs hdata' (by omega)]

lemma recvExactAux_exact : ∀ fuel needed chunks body rest, needed ≤ fuel →
    recvExactAux fuel needed chunks = .ok (body, rest) → body.length = needed := by
  intro fuel
  induction fuel with
  | zero =>
    intro needed chunks body rest hle h
    cases needed with
    | zero =>
      simp only [recvExactAux, Except.ok.injEq, Prod.mk.injEq] at h
      rw [← h.1]
      rfl
    | succ m => omega
  | succ f ih =>
    intro needed chunks body rest hle h
    cases needed with
    | zero =>
      simp only [recvExactAux, Except.ok.injEq, Prod.mk.injEq] at h
      rw [← h.1]
      rfl
    | succ m =>
      cases chunks with
      | nil => exact absurd h (by simp [recvExactAux])
      | cons c cs =>
        cases c with
        | timeout => exact absurd h (by simp [recvExactAux])
        | data bytes =>
          cases bytes with
          | nil => exact absurd h (by simp [recvExactAux])
          | cons b bs =>
            have hu : recvExactAux (f + 1) (m + 1) (Chunk.data (b :: bs) :: cs) =
                (match recvExactAux f (m + 1 - ((b :: bs).take (m + 1)).length)
                    (if ((b :: bs).drop (m + 1)).isEmpty then cs
                     else Chunk.data ((b :: bs).drop (m + 1)) :: cs) with
                  | .error e => .error e
                  | .ok (more, rest) => .ok ((b :: bs).take (m + 1) ++ more, rest)) := rfl
            rw [hu] at h
            have hgotle : ((b :: bs).take (m + 1)).length ≤ m + 1 := by
              simp only [List.length_take]
              omega
            have hgotpos : 1 ≤ ((b :: bs).take (m + 1)).length := by
              simp only [List.length_take, List.length_cons]
              omega
            cases hrec : recvExactAux f (m + 1 - ((b :: bs).take (m + 1)).length)
                (if ((b :: bs).drop (m + 1)).isEmpty then cs
                 else Chunk.data ((b :: bs).drop (m + 1)) :: cs) with
            | error e => rw [hrec] at h; exact absurd h (by simp)
            | ok pr =>
              obtain ⟨more, rest'⟩ := pr
              rw [hrec] at h
              simp only [Except.ok.injEq, Prod.mk.injEq] at h
              have hm := ih (m + 1 - ((b :: bs).take (m + 1)).length) _ more rest'
                (by omega) hrec
              rw [← h.1]
              simp only [List.length_append, hm]
              omega

/-- C5: the body-read loop reads until `length` bytes are collected or the
peer closes.  If the stream delivers fewer than `L` bytes before closing (no
timeout), the loop fails with the "Socket connection broken" error (the
spec's `ShortBody`, normalized at the boundary like every other error); and
any successful result has exactly `L` bytes — a truncated body is never
returned as success. -/
theorem body_read_never_truncated (L : Nat) (chunks : List Chunk) :
    (allData chunks = true → totalBytesOf chunks < L →
      recvExact L chunks = .error .connectionBroken) ∧
    (∀ body rest, recvExact L chunks = .ok (body, rest) → body.length = L) :=
  ⟨fun h1 h2 => recvExactAux_short L L chunks h1 h2,
   fun body rest h => recvExactAux_exact L L chunks body rest (Nat.le_refl L) h⟩

/-- C5 witness: a 3-byte request against a stream that closes after 1 byte
fails with the broken-connection error; a 2-byte read out of a 3-byte arrival
returns exactly 2 bytes. -/
theorem body_read_never_truncated_w :
    recvExact 3 [Chunk.data [1]] = .error .connectionBroken ∧
    ([7, 8] : List Nat).length = 2 := by
  constructor
  · exact (body_read_never_truncated 3 [Chunk.data [1]]).1 (by decide) (by decide)
  · exact (body_read_never_truncated 2 [Chunk.data [7, 8, 9]]).2 [7, 8] [Chunk.data [9]]
      (by decide)

/-! ## Claim theorems about the orchestrator boundary -/

/-- C1: `send_iso_authorization` is total and every internal failure is
normalized: for every environment and input the returned dictionary is either
the success dictionary, or the failure dictionary with `approved = false`,
`field39 = "96"` and the raised error captured in `error`. -/
theorem failures_normalized (env : NetEnv) (host : List Nat) (port : Nat)
    (pan expiry cvv : List Nat) (a : Nat) (now : List Nat) :
    (∃ d : SuccessData,
      authorize env host port pan expiry cvv a now =
        ⟨d.approved, d.field39, some d.mti, some d.amountReceived,
          some d.transactionTime, none⟩) ∨
    (∃ e : ErrKind,
      authorize env host port pan expiry cvv a now =
        ⟨false, ascii "96", none, none, none, some e⟩) := by
  cases henc : encode (buildMessage pan expiry cvv a now) with
  | error ce => exact Or.inr ⟨.encodingError ce, by simp [authorize, runAuth, henc]⟩
  | ok reqBytes =>
    rcases hex : exchange env reqBytes with ⟨r, st⟩
    cases r with
    | error e => exact Or.inr ⟨e, by simp [authorize, runAuth, henc, hex]⟩
    | ok body =>
      cases hdec : decode body with
      | error de =>
        exact Or.inr ⟨.decodingError de, by simp [authorize, runAuth, henc, hex, hdec]⟩
      | ok m =>
        cases hd : mkDecision m with
        | error e => exact Or.inr ⟨e, by simp [authorize, runAuth, henc, hex, hdec, hd]⟩
        | ok d => exact Or.inl ⟨d, by simp [authorize, runAuth, henc, hex, hdec, hd]⟩

/-- C3: whenever the exchange succeeds and the response decodes, with fields
39, 4 and 12 present, the returned dictionary is the success dictionary whose
`approved` is true exactly when field 39 is "00", whose `field39` is the
response's field 39 and which surfaces the response's MTI, field 4 and
field 12. -/
theorem approval_mapping (env : NetEnv) (host : List Nat) (port : Nat)
    (pan expiry cvv : List Nat) (a : Nat) (now : List Nat)
    (reqBytes body : List Nat) (m : Message) (f39 f4 f12 : List Nat)
    (henc : encode (buildMessage pan expiry cvv a now) = .ok reqBytes)
    (hex : (exchange env reqBytes).1 = .ok body)
    (hdec : decode body = .ok m)
    (h39 : m.fields.lookup 39 = some f39)
    (h4 : m.fields.lookup 4 = some f4)
    (h12 : m.fields.lookup 12 = some f12) :
    authorize env host port pan expiry cvv a now =
      ⟨decide (f39 = ascii "00"), f39, some m.mti, some f4, some f12, none⟩ := by
  rcases hsp : exchange env reqBytes with ⟨r, st⟩
  rw [hsp] at hex
  simp only at hex
  subst hex
  simp [authorize, runAuth, henc, hsp, hdec, mkDecision, h39, h4, h12]

/-- A declined response message: MTI "0110", field 39 = "05", the amount and
local-time fields echoed. -/
def respMsg0 : Message :=
  ⟨ascii "0110", [(4, ascii "000000001000"), (12, ascii "120000"), (39, ascii "05")]⟩

/-- The encoded bytes of `respMsg0`. -/
def body0 : List Nat :=
  (encode respMsg0).toOption.getD []

/-- An environment whose peer answers with a correctly framed `respMsg0`. -/
def env0 : NetEnv :=
  ⟨true, true, [.data ([body0.length / 256, body0.length % 256] ++ body0)]⟩

/-- The encoded request of the witness run. -/
def reqBytes0 : List Nat :=
  (encode (buildMessage (ascii "4111111111111111") (ascii "2512") (ascii "123") 1000
    (ascii "0101120000"))).toOption.getD []

/-- C3 witness: a full concrete run against `env0` — field 39 = "05" yields
`approved = false` with `field39 = "05"`, and the response's MTI "0110",
field 4 and field 12 are surfaced. -/
theorem approval_mapping_w :
    authorize env0 (ascii "iso.example.com") 8583 (ascii "4111111111111111")
      (ascii "2512") (ascii "123") 1000 (ascii "0101120000") =
      ⟨false, ascii "05", some (ascii "0110"), some (ascii "000000001000"),
        some (ascii "120000"), none⟩ := by
  have h := approval_mapping env0 (ascii "iso.example.com") 8583 (ascii "4111111111111111")
    (ascii "2512") (ascii "123") 1000 (ascii "0101120000") reqBytes0 body0 respMsg0
    (ascii "05") (ascii "000000001000") (ascii "120000")
    (by decide) (by decide) (by decide) (by decide) (by decide) (by decide)
  exact h

/-- C2: on the connect-failure exit path the socket has been created but is
not closed when the call returns (the `except` branch has no `close`); the
same holds when the header read fails after a successful connect.  The claim's
"closed on every exit path" is violated by the code. -/
theorem socket_left_open_on_failure :
    sockAfter ⟨false, true, []⟩ (ascii "iso.example.com") 8583 (ascii "4111111111111111")
      (ascii "2512") (ascii "123") 1000 (ascii "0101120000") = .opened ∧
    sockAfter ⟨true, true, []⟩ (ascii "iso.example.com") 8583 (ascii "4111111111111111")
      (ascii "2512") (ascii "123") 1000 (ascii "0101120000") = .opened ∧
    SockState.opened ≠ SockState.closed := by
  refine ⟨by decide, by decide, by decide⟩

end IsoBackend
